import Mathlib

/-!
Verification development for `protocheck-build/src/lib.rs`.

The repository exposes two functions:

* `compile_protos_with_validators` — builds a descriptor pool from the
  compiled proto files and walks it, registering prost-build attribute
  directives (Pass A: ignore-field detection from the `buf.validate.field`
  extension; Pass B: per-target-package message/oneof/field annotation),
  then registers two `extern_path` remappings, requests well-known-type
  compilation, and removes the staging descriptor-set file.
* `get_proto_files_recursive` — recursive discovery of `.proto` files.

The embedding below models the descriptor pool reflectively (the shape of
the data the Rust code inspects through prost-reflect) and the prost-build
`Config` as an append-only list of directives, threaded through the code in
the same order the Rust code mutates it.
-/

namespace Protocheck

/-- One member of a decoded extension payload, as seen through
prost-reflect's `DynamicMessage::fields()`: the member's field descriptor
full name paired with the result of `Value::as_enum_number()` on its
value (`none` when the value is not an enum number). -/
structure ExtMember where
  fullName : String
  enumNumber : Option Int
deriving DecidableEq, Repr

/-- A field descriptor. `name` is the declared (unqualified) name,
`fullName` the fully-qualified dotted name. `validateSpec` is the result
of `field.options().get_extension(validate_option).as_message()`:
`none` when the extension value does not decode to a message value, and
`some members` the decoded message's set members. When the extension is
absent at the field, prost-reflect yields the default (empty) message, so
the absent case is `some []` (or `none`); either way no member matches
the ignore-rule path. -/
structure FieldDesc where
  name : String
  fullName : String
  validateSpec : Option (List ExtMember)
deriving DecidableEq, Repr

/-- A oneof descriptor: fully-qualified name plus its member fields. -/
structure OneofDesc where
  fullName : String
  fields : List FieldDesc
deriving DecidableEq, Repr

/-- A message descriptor. `fields` is what `message_desc.fields()`
iterates (all fields of the message — in protobuf descriptors the members
of a oneof are fields of the message, so they appear here too); `oneofs`
is what `message_desc.oneofs()` iterates. -/
structure MessageDesc where
  fullName : String
  packageName : String
  fields : List FieldDesc
  oneofs : List OneofDesc
deriving DecidableEq, Repr

/-- Well-formedness of a message descriptor as prost-reflect builds it:
every member field of a oneof is one of the message's fields. -/
def MessageDesc.oneofFieldsSub (m : MessageDesc) : Prop :=
  ∀ o ∈ m.oneofs, ∀ f ∈ o.fields, f ∈ m.fields

/-- The decoded descriptor pool: its messages (as iterated by
`pool.all_messages()`), and whether
`pool.get_extension_by_name("buf.validate.field")` finds the extension. -/
structure DescriptorPool where
  hasValidateExt : Bool
  messages : List MessageDesc
deriving DecidableEq, Repr

/-- One registration made on the prost-build `Config`. The constructors
correspond to `Config::field_attribute`, `Config::message_attribute`,
`Config::type_attribute`, `Config::extern_path` and
`Config::compile_well_known_types`. -/
inductive Directive where
  | fieldAttr (key attr : String)
  | messageAttr (key attr : String)
  | typeAttr (key attr : String)
  | pathRemap (protoPath rustPath : String)
  | compileWellKnownTypes
deriving DecidableEq, Repr

/-- The generation configuration: an append-only accumulator of
directives. -/
abbrev Config := List Directive

/-- `Config::field_attribute` (appends one directive). -/
def field_attr_reg (cfg : Config) (key attr : String) : Config :=
  cfg ++ [Directive.fieldAttr key attr]

/-- `Config::message_attribute` (appends one directive). -/
def message_attr_reg (cfg : Config) (key attr : String) : Config :=
  cfg ++ [Directive.messageAttr key attr]

/-- `Config::type_attribute` (appends one directive). -/
def type_attr_reg (cfg : Config) (key attr : String) : Config :=
  cfg ++ [Directive.typeAttr key attr]

/-- `Config::extern_path` (appends one directive). -/
def path_remap_reg (cfg : Config) (protoPath rustPath : String) : Config :=
  cfg ++ [Directive.pathRemap protoPath rustPath]

/-- `Config::compile_well_known_types` (appends one directive). -/
def cwkt_reg (cfg : Config) : Config :=
  cfg ++ [Directive.compileWellKnownTypes]

/-- The fixed ignore-rule member path searched for inside the decoded
extension payload (`"buf.validate.FieldRules.ignore"` in the source). -/
def ignoreRulePath : String := "buf.validate.FieldRules.ignore"

/-- The `ignore_field` decision of the source (lines 55–64): the decoded
payload must contain a member at the ignore-rule path whose value is an
enum number equal to 3 (`ALWAYS_IGNORE`). -/
def ignore_field (validateSpec : Option (List ExtMember)) : Bool :=
  match validateSpec with
  | none => false
  | some msg =>
    match (msg.find? (fun f => f.fullName == ignoreRulePath)).bind
        (fun f => f.enumNumber) with
    | none => false
    | some v => v == 3

/-- The ignore-rule ordinal the source extracts, as an `Option Int`:
`some v` when the payload decodes to a message with an ignore-rule member
carrying enum number `v`, `none` otherwise. -/
def ignoreOrdinal (validateSpec : Option (List ExtMember)) : Option Int :=
  validateSpec.bind (fun msg =>
    (msg.find? (fun f => f.fullName == ignoreRulePath)).bind
      (fun f => f.enumNumber))

/-- The attribute string registered by Pass A. -/
def ignoreAttr : String := "#[protocheck(ignore_field)]"

/-- The attribute registered for a message in Pass B
(`protobuf_validate`). -/
def validateMsgAttr (messageName : String) : String :=
  "#[::protocheck::macros::protobuf_validate(\"" ++ messageName ++ "\")]"

/-- The conversion-derive attribute on messages (`cel` feature). -/
def celMsgAttr : String := "#[derive(::protocheck::macros::TryIntoCelValue)]"

/-- The validation attribute on oneofs (`protobuf_validate_oneof`). -/
def validateOneofAttr (oneofName : String) : String :=
  "#[::protocheck::macros::protobuf_validate_oneof(\"" ++ oneofName ++ "\")]"

/-- The wrapper-derive attribute on oneofs. -/
def oneofDeriveAttr : String := "#[derive(::protocheck::macros::Oneof)]"

/-- The conversion-derive attribute on oneofs (`cel` feature). -/
def oneofCelAttr : String := "#[derive(::protocheck::macros::OneofTryIntoCelValue)]"

/-- The field-name attribute on oneof member fields
(`proto_name = "..."`). -/
def protoNameAttr (declaredName : String) : String :=
  "#[protocheck(proto_name = \"" ++ declaredName ++ "\")]"

/-- Pass A for one message (source lines 51–72): when the pool has the
`buf.validate.field` extension, walk the message's fields and register an
ignore directive keyed by the field's fully-qualified name for each field
whose `ignore_field` decision is true. Total: the absent/undecodable
branches fall through without error. -/
def passAMessage (hasExt : Bool) (cfg : Config) (m : MessageDesc) : Config :=
  if hasExt then
    m.fields.foldl (fun cfg field =>
      if ignore_field field.validateSpec then
        field_attr_reg cfg field.fullName ignoreAttr
      else cfg) cfg
  else cfg

/-- Pass B body for one oneof (source lines 89–114): validation attribute,
wrapper derive, conversion derive under the feature, then one field-name
directive per member field keyed `oneofFullName ++ "." ++ field.name`. -/
def passBOneof (cel : Bool) (cfg : Config) (oneof : OneofDesc) : Config :=
  let cfg := type_attr_reg cfg oneof.fullName (validateOneofAttr oneof.fullName)
  let cfg := type_attr_reg cfg oneof.fullName oneofDeriveAttr
  let cfg := if cel then type_attr_reg cfg oneof.fullName oneofCelAttr else cfg
  oneof.fields.foldl (fun cfg field =>
    field_attr_reg cfg (oneof.fullName ++ "." ++ field.name)
      (protoNameAttr field.name)) cfg

/-- Pass B for one message (source lines 75–115): only when the message's
package name is in the target package list (exact `contains` match). -/
def passBMessage (cel : Bool) (packages : List String) (cfg : Config)
    (m : MessageDesc) : Config :=
  if packages.contains m.packageName then
    let cfg := message_attr_reg cfg m.fullName (validateMsgAttr m.fullName)
    let cfg := if cel then message_attr_reg cfg m.fullName celMsgAttr else cfg
    m.oneofs.foldl (passBOneof cel) cfg
  else cfg

/-- The per-message body of the main loop: Pass A then Pass B. -/
def processMessage (hasExt cel : Bool) (packages : List String)
    (cfg : Config) (m : MessageDesc) : Config :=
  passBMessage cel packages (passAMessage hasExt cfg m) m

/-- The directive-synthesis portion of `compile_protos_with_validators`
(source lines 42–121): the message loop, then the two `extern_path`
remappings and `compile_well_known_types`. -/
def synthesize (pool : DescriptorPool) (packages : List String) (cel : Bool)
    (cfg : Config) : Config :=
  let cfg := pool.messages.foldl
    (processMessage pool.hasValidateExt cel packages) cfg
  let cfg := path_remap_reg cfg (".buf.validate")
    ("::protocheck::types::protovalidate")
  let cfg := path_remap_reg cfg (".google.protobuf") ("::protocheck::types")
  cwkt_reg cfg

/-- The error cases `compile_protos_with_validators` can propagate. -/
inductive BuildError
  | compileError
  | ioError
  | decodeError
  | removeError
deriving DecidableEq, Repr

instance : DecidableEq (Except BuildError Unit) := fun x y =>
  match x, y with
  | Except.ok (), Except.ok () => isTrue rfl
  | Except.error a, Except.error b =>
    match decEq a b with
    | isTrue h => isTrue (by rw [h])
    | isFalse h => isFalse (by intro hh; cases hh; exact h rfl)
  | Except.ok _, Except.error _ => isFalse (by intro h; cases h)
  | Except.error _, Except.ok _ => isFalse (by intro h; cases h)

/-- Oracle for the effectful steps of one invocation: whether the
throwaway `compile_protos` call succeeds (writing the staging file),
whether opening/reading the staging file succeeds, what
`DescriptorPool::decode` yields (`none` for a decode error), and whether
the final `remove_file` succeeds. -/
structure BuildEnv where
  compileOk : Bool
  readOk : Bool
  decodeResult : Option DescriptorPool
  removeOk : Bool
deriving Repr

/-- Result of one invocation: the returned `Result`, the caller's config
after all mutations, and whether the staging descriptor-set file is
present on disk at return. -/
structure BuildOutcome where
  result : Except BuildError Unit
  config : Config
  stagingPresent : Bool
deriving DecidableEq, Repr

/-- `compile_protos_with_validators` (source lines 16–126), with the
filesystem and external compiler abstracted by `BuildEnv`. Each `?` in
the source is an early return carrying the config and staging-file state
at that point: the staging file exists once the throwaway compile
succeeded, and it is removed only by the `remove_file` call at line 123,
which runs after the whole synthesis. -/
def compile_protos_with_validators (env : BuildEnv) (packages : List String)
    (cel : Bool) (cfg : Config) : BuildOutcome :=
  if env.compileOk = false then
    ⟨Except.error BuildError.compileError, cfg, false⟩
  else if env.readOk = false then
    ⟨Except.error BuildError.ioError, cfg, true⟩
  else
    match env.decodeResult with
    | none => ⟨Except.error BuildError.decodeError, cfg, true⟩
    | some pool =>
      let cfg := synthesize pool packages cel cfg
      if env.removeOk then ⟨Except.ok (), cfg, false⟩
      else ⟨Except.error BuildError.removeError, cfg, true⟩

/-! ### File discovery (`get_proto_files_recursive`) -/

/-- A filesystem node. For a file, `isProtoExt` models
`path.extension().is_some_and(ext == "proto")` and `validUnicode` models
`path.to_str().is_some()`. -/
inductive FsNode where
  | file (name : String) (isProtoExt : Bool) (validUnicode : Bool)
  | dir (name : String) (children : List FsNode)

/-- The two `io::ErrorKind`s the discovery helper can produce. -/
inductive IoErrorKind
  | invalidInput
  | invalidData
deriving DecidableEq, Repr

/-- Whether a node is a directory (`path.is_dir()`). -/
def FsNode.isDir : FsNode → Bool
  | FsNode.dir _ _ => true
  | FsNode.file _ _ _ => false

/-- `collect_proto_files_recursive_helper` (source lines 148–175): visit
the entries of a directory in order; push a `.proto` file's path (failing
with invalid-data when it is not valid text), recurse into
subdirectories. -/
def collect_helper : String → List FsNode → Except IoErrorKind (List String)
  | _, [] => Except.ok []
  | dirPath, FsNode.file name isProto valid :: rest =>
    if isProto then
      if valid then do
        let restFiles ← collect_helper dirPath rest
        Except.ok ((dirPath ++ "/" ++ name) :: restFiles)
      else Except.error IoErrorKind.invalidData
    else collect_helper dirPath rest
  | dirPath, FsNode.dir name children :: rest => do
    let sub ← collect_helper (dirPath ++ "/" ++ name) children
    let restFiles ← collect_helper dirPath rest
    Except.ok (sub ++ restFiles)

/-- `get_proto_files_recursive` (source lines 130–146): fail with
invalid-input when the base path is not a directory, else collect
recursively. -/
def get_proto_files_recursive : FsNode → Except IoErrorKind (List String)
  | FsNode.file n p v =>
    let _ := (n, p, v)
    Except.error IoErrorKind.invalidInput
  | FsNode.dir name children => collect_helper name children

/-! ### Pure directive lists

The threaded definitions above mirror the source's in-place mutation of
the `Config`. The following pure forms give, for each syntactic block of
the source, the list of directives that block appends; the factorization
lemmas below prove the two presentations agree. -/

/-- Directives Pass A appends for one field. -/
def passAFieldDirs (f : FieldDesc) : List Directive :=
  if ignore_field f.validateSpec then
    [Directive.fieldAttr f.fullName ignoreAttr]
  else []

/-- Directives Pass A appends for one message. -/
def passADirs (hasExt : Bool) (m : MessageDesc) : List Directive :=
  if hasExt then (m.fields.map passAFieldDirs).flatten else []

/-- The directive Pass B appends for one oneof member field. -/
def oneofFieldDir (oneofName : String) (f : FieldDesc) : Directive :=
  Directive.fieldAttr (oneofName ++ "." ++ f.name) (protoNameAttr f.name)

/-- Directives Pass B appends for one oneof. -/
def passBOneofDirs (cel : Bool) (o : OneofDesc) : List Directive :=
  [Directive.typeAttr o.fullName (validateOneofAttr o.fullName),
   Directive.typeAttr o.fullName oneofDeriveAttr]
  ++ (if cel then [Directive.typeAttr o.fullName oneofCelAttr] else [])
  ++ o.fields.map (oneofFieldDir o.fullName)

/-- Directives Pass B appends for one message. -/
def passBDirs (cel : Bool) (packages : List String) (m : MessageDesc) :
    List Directive :=
  if packages.contains m.packageName then
    [Directive.messageAttr m.fullName (validateMsgAttr m.fullName)]
    ++ (if cel then [Directive.messageAttr m.fullName celMsgAttr] else [])
    ++ (m.oneofs.map (passBOneofDirs cel)).flatten
  else []

/-- Directives the main loop appends for one message (Pass A then B). -/
def messageDirs (hasExt cel : Bool) (packages : List String)
    (m : MessageDesc) : List Directive :=
  passADirs hasExt m ++ passBDirs cel packages m

/-- The three directives registered after the message loop. -/
def remapTail : List Directive :=
  [Directive.pathRemap (".buf.validate") ("::protocheck::types::protovalidate"),
   Directive.pathRemap (".google.protobuf") ("::protocheck::types"),
   Directive.compileWellKnownTypes]

/-- All directives one synthesis run appends. -/
def synthDirs (pool : DescriptorPool) (packages : List String) (cel : Bool) :
    List Directive :=
  (pool.messages.map (messageDirs pool.hasValidateExt cel packages)).flatten
    ++ remapTail

/-! ### Concrete sample descriptors (used to instantiate the theorems) -/

/-- An extension-payload member carrying the ignore rule with ordinal 3. -/
def sampleIgnoreMember : ExtMember :=
  ⟨"buf.validate.FieldRules.ignore", some 3⟩

/-- A plain field whose payload carries ignore ordinal 3. -/
def sampleFieldA : FieldDesc := ⟨"a", "p.M.a", some [sampleIgnoreMember]⟩

/-- A oneof member field whose payload carries ignore ordinal 3. -/
def sampleFieldX : FieldDesc := ⟨"x", "p.M.x", some [sampleIgnoreMember]⟩

/-- A oneof member field with no extension payload. -/
def sampleFieldY : FieldDesc := ⟨"y", "p.M.y", none⟩

/-- A oneof with members `x` and `y`. -/
def sampleOneof : OneofDesc := ⟨"p.M.o", [sampleFieldX, sampleFieldY]⟩

/-- A message in package `p` whose field list contains the oneof members
(as prost-reflect's `fields()` does). -/
def sampleMessage : MessageDesc :=
  ⟨"p.M", "p", [sampleFieldA, sampleFieldX, sampleFieldY], [sampleOneof]⟩

/-- A pool holding `sampleMessage`, with the validate extension present. -/
def samplePool : DescriptorPool := ⟨true, [sampleMessage]⟩

/-- An invocation environment whose decode step fails. -/
def envDecodeFail : BuildEnv := ⟨true, true, none, true⟩

/-- An invocation environment in which every step succeeds. -/
def envAllOk : BuildEnv := ⟨true, true, some samplePool, true⟩

/-! ### Factorization lemmas -/

theorem foldl_append_out {α β : Type} (step : List β → α → List β)
    (out : α → List β) (h : ∀ cfg x, step cfg x = cfg ++ out x) :
    ∀ (l : List α) (cfg : List β),
      l.foldl step cfg = cfg ++ (l.map out).flatten
  | [], cfg => by simp
  | x :: l, cfg => by
    simp only [List.foldl_cons, List.map_cons, List.flatten_cons]
    rw [foldl_append_out step out h l (step cfg x), h cfg x, List.append_assoc]

theorem flatten_map_single {α β : Type} (f : α → β) :
    ∀ l : List α, (l.map (fun a => [f a])).flatten = l.map f
  | [] => rfl
  | x :: l => by
    simp only [List.map_cons, List.flatten_cons, List.singleton_append,
      flatten_map_single f l]

theorem passAMessage_eq (hasExt : Bool) (cfg : Config) (m : MessageDesc) :
    passAMessage hasExt cfg m = cfg ++ passADirs hasExt m := by
  unfold passAMessage passADirs
  cases hasExt with
  | false => simp
  | true =>
    simp only [if_true]
    exact foldl_append_out _ passAFieldDirs
      (fun cfg f => by
        unfold passAFieldDirs field_attr_reg
        by_cases h : ignore_field f.validateSpec <;> simp [h])
      m.fields cfg

theorem passBOneof_eq (cel : Bool) (cfg : Config) (o : OneofDesc) :
    passBOneof cel cfg o = cfg ++ passBOneofDirs cel o := by
  unfold passBOneof passBOneofDirs
  rw [foldl_append_out _ (fun f => [oneofFieldDir o.fullName f])
    (fun cfg f => by unfold field_attr_reg oneofFieldDir; rfl)]
  rw [flatten_map_single]
  by_cases h : cel <;> simp [h, type_attr_reg]

theorem passBMessage_eq (cel : Bool) (packages : List String) (cfg : Config)
    (m : MessageDesc) :
    passBMessage cel packages cfg m = cfg ++ passBDirs cel packages m := by
  unfold passBMessage passBDirs
  cases hpkg : packages.contains m.packageName with
  | false => simp [hpkg]
  | true =>
    simp only [hpkg, if_true]
    rw [foldl_append_out (passBOneof cel) (passBOneofDirs cel)
      (passBOneof_eq cel)]
    by_cases h : cel <;> simp [h, message_attr_reg]

theorem processMessage_eq (hasExt cel : Bool) (packages : List String)
    (cfg : Config) (m : MessageDesc) :
    processMessage hasExt cel packages cfg m
      = cfg ++ messageDirs hasExt cel packages m := by
  unfold processMessage messageDirs
  rw [passAMessage_eq, passBMessage_eq, List.append_assoc]

theorem synthesize_eq (pool : DescriptorPool) (packages : List String)
    (cel : Bool) (cfg : Config) :
    synthesize pool packages cel cfg = cfg ++ synthDirs pool packages cel := by
  unfold synthesize synthDirs remapTail
  rw [foldl_append_out (processMessage pool.hasValidateExt cel packages)
    (messageDirs pool.hasValidateExt cel packages)
    (processMessage_eq pool.hasValidateExt cel packages)]
  simp [path_remap_reg, cwkt_reg]

/-! ### Supporting lemmas for the claims -/

theorem ignore_field_iff (spec : Option (List ExtMember)) :
    ignore_field spec = true ↔ ignoreOrdinal spec = some 3 := by
  cases spec with
  | none => simp [ignore_field, ignoreOrdinal]
  | some msg =>
    show (match (msg.find? (fun f => f.fullName == ignoreRulePath)).bind
        (fun f => f.enumNumber) with
      | none => false
      | some v => v == 3) = true
      ↔ (msg.find? (fun f => f.fullName == ignoreRulePath)).bind
          (fun f => f.enumNumber) = some 3
    cases h : (msg.find? (fun f => f.fullName == ignoreRulePath)).bind
        (fun f => f.enumNumber) with
    | none => simp
    | some v => simp [beq_iff_eq]

theorem countP_passAFieldDirs (fn : String) (g : FieldDesc) :
    (passAFieldDirs g).countP
        (fun d => d == Directive.fieldAttr fn ignoreAttr)
      = if (ignore_field g.validateSpec && (g.fullName == fn)) then 1 else 0 := by
  unfold passAFieldDirs
  by_cases h : ignore_field g.validateSpec
  · by_cases h2 : g.fullName = fn <;>
      simp [h, h2, List.countP_cons]
  · simp [h]

theorem sum_map_ite_one {α : Type} (q : α → Bool) :
    ∀ l : List α, (l.map (fun a => if q a then 1 else 0)).sum = l.countP q
  | [] => rfl
  | x :: l => by
    by_cases h : q x
    · simp [List.countP_cons, sum_map_ite_one q l, h]
      omega
    · simp [List.countP_cons, sum_map_ite_one q l, h]

theorem passBOneofDirs_length (cel : Bool) (o : OneofDesc) :
    (passBOneofDirs cel o).length
      = 2 + (if cel then 1 else 0) + o.fields.length := by
  by_cases h : cel
  · simp [passBOneofDirs, h]
    omega
  · simp [passBOneofDirs, h]
    omega

theorem mem_passBOneofDirs_cases (cel : Bool) (o : OneofDesc) (d : Directive)
    (hd : d ∈ passBOneofDirs cel o) :
    d = Directive.typeAttr o.fullName (validateOneofAttr o.fullName)
    ∨ d = Directive.typeAttr o.fullName oneofDeriveAttr
    ∨ d = Directive.typeAttr o.fullName oneofCelAttr
    ∨ ∃ f ∈ o.fields, d = oneofFieldDir o.fullName f := by
  unfold passBOneofDirs at hd
  by_cases h : cel
  · rw [if_pos h] at hd
    simp only [List.cons_append, List.nil_append, List.append_assoc,
      List.mem_cons, List.mem_map] at hd
    rcases hd with h1 | h1 | h1 | ⟨f, hf, heq⟩
    · exact Or.inl h1
    · exact Or.inr (Or.inl h1)
    · exact Or.inr (Or.inr (Or.inl h1))
    · exact Or.inr (Or.inr (Or.inr ⟨f, hf, heq.symm⟩))
  · rw [if_neg h] at hd
    simp only [List.cons_append, List.nil_append, List.append_assoc,
      List.mem_cons, List.mem_map] at hd
    rcases hd with h1 | h1 | ⟨f, hf, heq⟩
    · exact Or.inl h1
    · exact Or.inr (Or.inl h1)
    · exact Or.inr (Or.inr (Or.inr ⟨f, hf, heq.symm⟩))

theorem mem_passBDirs_cases (cel : Bool) (packages : List String)
    (m : MessageDesc) (d : Directive) (hd : d ∈ passBDirs cel packages m) :
    d = Directive.messageAttr m.fullName (validateMsgAttr m.fullName)
    ∨ d = Directive.messageAttr m.fullName celMsgAttr
    ∨ ∃ o ∈ m.oneofs, d ∈ passBOneofDirs cel o := by
  unfold passBDirs at hd
  cases hpkg : packages.contains m.packageName with
  | false =>
    rw [hpkg] at hd
    simp at hd
  | true =>
    rw [hpkg] at hd
    simp only [if_true] at hd
    by_cases h : cel
    · rw [if_pos h] at hd
      simp only [List.cons_append, List.nil_append, List.append_assoc,
        List.mem_cons, List.mem_flatten, List.mem_map] at hd
      rcases hd with h1 | h1 | ⟨l, ⟨o, ho, rfl⟩, hmem⟩
      · exact Or.inl h1
      · exact Or.inr (Or.inl h1)
      · exact Or.inr (Or.inr ⟨o, ho, hmem⟩)
    · rw [if_neg h] at hd
      simp only [List.cons_append, List.nil_append, List.append_assoc,
        List.mem_cons, List.mem_flatten, List.mem_map] at hd
      rcases hd with h1 | ⟨l, ⟨o, ho, rfl⟩, hmem⟩
      · exact Or.inl h1
      · exact Or.inr (Or.inr ⟨o, ho, hmem⟩)

theorem fieldAttr_mem_passBDirs (cel : Bool) (packages : List String)
    (m : MessageDesc) (key attr : String)
    (hd : Directive.fieldAttr key attr ∈ passBDirs cel packages m) :
    ∃ o ∈ m.oneofs, ∃ f ∈ o.fields,
      key = o.fullName ++ "." ++ f.name ∧ attr = protoNameAttr f.name := by
  rcases mem_passBDirs_cases cel packages m _ hd with h1 | h1 | ⟨o, ho, hmem⟩
  · exact Directive.noConfusion h1
  · exact Directive.noConfusion h1
  · rcases mem_passBOneofDirs_cases cel o _ hmem with
      h1 | h1 | h1 | ⟨f, hf, heq⟩
    · exact Directive.noConfusion h1
    · exact Directive.noConfusion h1
    · exact Directive.noConfusion h1
    · obtain ⟨hk, ha⟩ := Directive.fieldAttr.inj heq
      exact ⟨o, ho, f, hf, hk, ha⟩

theorem oneofFieldDir_mem_passBDirs (cel : Bool) (packages : List String)
    (m : MessageDesc) (o : OneofDesc) (f : FieldDesc)
    (hpkg : packages.contains m.packageName = true)
    (ho : o ∈ m.oneofs) (hf : f ∈ o.fields) :
    oneofFieldDir o.fullName f ∈ passBDirs cel packages m := by
  have h1 : oneofFieldDir o.fullName f
      ∈ o.fields.map (oneofFieldDir o.fullName) :=
    List.mem_map_of_mem _ hf
  have h2 : oneofFieldDir o.fullName f ∈ passBOneofDirs cel o := by
    unfold passBOneofDirs
    simp only [List.mem_append]
    tauto
  have h3 : oneofFieldDir o.fullName f
      ∈ (m.oneofs.map (passBOneofDirs cel)).flatten :=
    List.mem_flatten.mpr ⟨_, List.mem_map_of_mem _ ho, h2⟩
  unfold passBDirs
  rw [hpkg]
  simp only [if_true, List.mem_append]
  tauto

theorem not_remap_mem_passAFieldDirs (g : FieldDesc) (p r : String) :
    Directive.pathRemap p r ∉ passAFieldDirs g := by
  unfold passAFieldDirs
  by_cases h : ignore_field g.validateSpec <;> simp [h]

theorem not_remap_mem_passADirs (hasExt : Bool) (m : MessageDesc)
    (p r : String) :
    Directive.pathRemap p r ∉ passADirs hasExt m := by
  intro hd
  unfold passADirs at hd
  cases hasExt with
  | false => simp at hd
  | true =>
    simp only [if_true] at hd
    obtain ⟨l, hl, hmem⟩ := List.mem_flatten.mp hd
    obtain ⟨g, _, rfl⟩ := List.mem_map.mp hl
    exact not_remap_mem_passAFieldDirs g p r hmem

theorem not_remap_mem_passBOneofDirs (cel : Bool) (o : OneofDesc)
    (p r : String) :
    Directive.pathRemap p r ∉ passBOneofDirs cel o := by
  unfold passBOneofDirs
  by_cases h : cel <;> simp [h, oneofFieldDir]

theorem not_remap_mem_passBDirs (cel : Bool) (packages : List String)
    (m : MessageDesc) (p r : String) :
    Directive.pathRemap p r ∉ passBDirs cel packages m := by
  intro hd
  rcases mem_passBDirs_cases cel packages m _ hd with h1 | h1 | ⟨o, _, hmem⟩
  · exact Directive.noConfusion h1
  · exact Directive.noConfusion h1
  · exact not_remap_mem_passBOneofDirs cel o p r hmem

theorem not_remap_mem_msgFlatten (pool : DescriptorPool)
    (packages : List String) (cel : Bool) (p r : String) :
    Directive.pathRemap p r
      ∉ (pool.messages.map
          (messageDirs pool.hasValidateExt cel packages)).flatten := by
  intro hd
  obtain ⟨l, hl, hmem⟩ := List.mem_flatten.mp hd
  obtain ⟨m, _, rfl⟩ := List.mem_map.mp hl
  unfold messageDirs at hmem
  rcases List.mem_append.mp hmem with hA | hB
  · exact not_remap_mem_passADirs pool.hasValidateExt m p r hA
  · exact not_remap_mem_passBDirs cel packages m p r hB

theorem passBOneofDirs_flatten_length (cel : Bool) :
    ∀ os : List OneofDesc,
      ((os.map (passBOneofDirs cel)).flatten).length
        = os.length * (2 + (if cel then 1 else 0))
          + (os.map (fun o => o.fields.length)).sum
  | [] => by simp
  | o :: os => by
    rw [List.map_cons, List.flatten_cons, List.length_append,
      passBOneofDirs_flatten_length cel os, passBOneofDirs_length,
      List.map_cons, List.sum_cons, List.length_cons, Nat.succ_mul]
    omega

/-! ### The claims -/

/-- C1: For every field of a message (with the `buf.validate.field`
extension resolvable in the pool) whose extension payload decodes to a
message containing a member at the ignore-rule path with enum ordinal
exactly 3, Pass A registers exactly one ignore directive keyed by the
field's fully-qualified name; for ordinal 0, 1, or 2, for an absent
extension, or for a payload that does not decode to a message value
(`ignoreOrdinal ≠ some 3`), it registers zero such directives — and no
branch of Pass A is an error (the embedding `passAMessage` is a total
function). The hypothesis `hfilter` says `f` is the unique field of the
message bearing its fully-qualified name, as in any real descriptor
pool. -/
theorem claim_C1_passA_ignore_count (hasExt : Bool) (m : MessageDesc)
    (f : FieldDesc)
    (hfilter : m.fields.filter (fun g => g.fullName == f.fullName) = [f]) :
    (passAMessage hasExt [] m).countP
        (fun d => d == Directive.fieldAttr f.fullName ignoreAttr)
      = if hasExt = true ∧ ignoreOrdinal f.validateSpec = some 3
          then 1 else 0 := by
  cases hasExt with
  | false => simp [passAMessage]
  | true =>
    rw [passAMessage_eq]
    simp only [List.nil_append, true_and]
    unfold passADirs
    simp only [if_true]
    rw [List.countP_flatten, List.map_map]
    have hfun : (List.countP (fun d => d == Directive.fieldAttr f.fullName ignoreAttr))
          ∘ passAFieldDirs
        = fun g => if (ignore_field g.validateSpec && (g.fullName == f.fullName))
            then 1 else 0 :=
      funext (fun g => countP_passAFieldDirs f.fullName g)
    rw [hfun, sum_map_ite_one, ← List.countP_filter, hfilter]
    by_cases h : ignore_field f.validateSpec
    · have h3 : ignoreOrdinal f.validateSpec = some 3 :=
        (ignore_field_iff f.validateSpec).mp h
      simp [List.countP_cons, h, h3]
    · have h3 : ¬ ignoreOrdinal f.validateSpec = some 3 :=
        fun hh => h ((ignore_field_iff f.validateSpec).mpr hh)
      simp [List.countP_cons, h, h3]

/-- C1 witness: a concrete message with one field whose payload carries
ignore ordinal 3 yields exactly one ignore directive. -/
theorem claim_C1_witness :
    ((MessageDesc.mk ("p.M") ("p")
        [FieldDesc.mk ("a") ("p.M.a")
          (some [ExtMember.mk ("buf.validate.FieldRules.ignore") (some 3)])]
        []).fields.filter
          (fun g => g.fullName == ("p.M.a" : String))
        = [FieldDesc.mk ("a") ("p.M.a")
            (some [ExtMember.mk ("buf.validate.FieldRules.ignore") (some 3)])])
    ∧ (passAMessage true []
        (MessageDesc.mk ("p.M") ("p")
          [FieldDesc.mk ("a") ("p.M.a")
            (some [ExtMember.mk ("buf.validate.FieldRules.ignore") (some 3)])]
          [])).countP
        (fun d => d == Directive.fieldAttr
          (FieldDesc.mk ("a") ("p.M.a")
            (some [ExtMember.mk ("buf.validate.FieldRules.ignore")
              (some 3)])).fullName ignoreAttr)
      = if (true : Bool) = true
            ∧ ignoreOrdinal (FieldDesc.mk ("a") ("p.M.a")
              (some [ExtMember.mk ("buf.validate.FieldRules.ignore")
                (some 3)])).validateSpec = some 3
          then 1 else 0 :=
  ⟨by decide,
    claim_C1_passA_ignore_count true
      (MessageDesc.mk ("p.M") ("p")
        [FieldDesc.mk ("a") ("p.M.a")
          (some [ExtMember.mk ("buf.validate.FieldRules.ignore") (some 3)])]
        [])
      (FieldDesc.mk ("a") ("p.M.a")
        (some [ExtMember.mk ("buf.validate.FieldRules.ignore") (some 3)]))
      (by decide)⟩

/-- C2: For a message whose package is in the target set, Pass B
registers exactly 1 message-validation directive, plus 1
conversion-derive directive iff the `cel` feature is active, plus per
oneof 2 directives (validation + wrapper derive) plus 1 more iff the
feature is active, plus one field-name directive per oneof member
field. -/
theorem claim_C2_passB_count (cel : Bool) (packages : List String)
    (m : MessageDesc) (hpkg : packages.contains m.packageName = true) :
    (passBMessage cel packages [] m).length
      = 1 + (if cel then 1 else 0)
        + m.oneofs.length * (2 + (if cel then 1 else 0))
        + (m.oneofs.map (fun o => o.fields.length)).sum := by
  rw [passBMessage_eq]
  simp only [List.nil_append]
  unfold passBDirs
  simp only [hpkg, if_true]
  rw [List.length_append, List.length_append,
    passBOneofDirs_flatten_length]
  by_cases h : cel <;> simp [h] <;> omega

/-- C2 witness: a target-package message with one oneof of two member
fields, with the conversion feature on, yields 7 Pass B directives. -/
theorem claim_C2_witness :
    ((["p"] : List String).contains
        (MessageDesc.mk ("p.M") ("p") []
          [OneofDesc.mk ("p.M.o")
            [FieldDesc.mk ("x") ("p.M.x") none,
             FieldDesc.mk ("y") ("p.M.y") none]]).packageName = true)
    ∧ (passBMessage true ["p"] []
        (MessageDesc.mk ("p.M") ("p") []
          [OneofDesc.mk ("p.M.o")
            [FieldDesc.mk ("x") ("p.M.x") none,
             FieldDesc.mk ("y") ("p.M.y") none]])).length
      = 1 + (if (true : Bool) then 1 else 0)
        + (MessageDesc.mk ("p.M") ("p") []
            [OneofDesc.mk ("p.M.o")
              [FieldDesc.mk ("x") ("p.M.x") none,
               FieldDesc.mk ("y") ("p.M.y") none]]).oneofs.length
          * (2 + (if (true : Bool) then 1 else 0))
        + ((MessageDesc.mk ("p.M") ("p") []
            [OneofDesc.mk ("p.M.o")
              [FieldDesc.mk ("x") ("p.M.x") none,
               FieldDesc.mk ("y") ("p.M.y") none]]).oneofs.map
            (fun o => o.fields.length)).sum :=
  ⟨by decide,
    claim_C2_passB_count true ["p"]
      (MessageDesc.mk ("p.M") ("p") []
        [OneofDesc.mk ("p.M.o")
          [FieldDesc.mk ("x") ("p.M.x") none,
           FieldDesc.mk ("y") ("p.M.y") none]])
      (by decide)⟩

/-- C5: For a message whose package name is not an exact member of the
target package list, Pass B registers nothing at all — for the message,
its oneofs, or their member fields — independently of Pass A and of any
prefix relationship between package names. -/
theorem claim_C5_nontarget_empty (cel : Bool) (packages : List String)
    (m : MessageDesc) (hpkg : packages.contains m.packageName = false) :
    passBMessage cel packages [] m = [] := by
  rw [passBMessage_eq]
  simp only [List.nil_append]
  unfold passBDirs
  rw [hpkg]
  simp

/-- C5 witness: a message in package `"p.sub"` — a strict extension of
the target package `"p"`, whose field even carries an ignore-3 payload —
gets zero Pass B directives. -/
theorem claim_C5_witness :
    ((["p"] : List String).contains
        (MessageDesc.mk ("p.sub.M") ("p.sub")
          [FieldDesc.mk ("a") ("p.sub.M.a")
            (some [ExtMember.mk ("buf.validate.FieldRules.ignore")
              (some 3)])]
          [OneofDesc.mk ("p.sub.M.o")
            [FieldDesc.mk ("x") ("p.sub.M.x") none]]).packageName
      = false)
    ∧ passBMessage true ["p"] []
        (MessageDesc.mk ("p.sub.M") ("p.sub")
          [FieldDesc.mk ("a") ("p.sub.M.a")
            (some [ExtMember.mk ("buf.validate.FieldRules.ignore")
              (some 3)])]
          [OneofDesc.mk ("p.sub.M.o")
            [FieldDesc.mk ("x") ("p.sub.M.x") none]]) = [] :=
  ⟨by decide,
    claim_C5_nontarget_empty true ["p"]
      (MessageDesc.mk ("p.sub.M") ("p.sub")
        [FieldDesc.mk ("a") ("p.sub.M.a")
          (some [ExtMember.mk ("buf.validate.FieldRules.ignore") (some 3)])]
        [OneofDesc.mk ("p.sub.M.o")
          [FieldDesc.mk ("x") ("p.sub.M.x") none]])
      (by decide)⟩

/-- C3: every oneof member field of a target-package message gets its
field-level directive under the key `oneof full name ++ "." ++ declared
name`, with the declared name as parameter; and every field-level
directive Pass B registers has a key of that shape for some oneof member
— hence never the member field's own fully-qualified name whenever that
name differs from every oneof-scoped key. -/
theorem claim_C3_oneof_field_key (cel : Bool) (packages : List String)
    (m : MessageDesc) (o : OneofDesc) (f : FieldDesc)
    (hpkg : packages.contains m.packageName = true)
    (ho : o ∈ m.oneofs) (hf : f ∈ o.fields) :
    Directive.fieldAttr (o.fullName ++ "." ++ f.name) (protoNameAttr f.name)
        ∈ passBMessage cel packages [] m
    ∧ ∀ key attr,
        Directive.fieldAttr key attr ∈ passBMessage cel packages [] m →
        ∃ o' ∈ m.oneofs, ∃ f' ∈ o'.fields,
          key = o'.fullName ++ "." ++ f'.name
          ∧ attr = protoNameAttr f'.name := by
  rw [passBMessage_eq]
  simp only [List.nil_append]
  constructor
  · exact oneofFieldDir_mem_passBDirs cel packages m o f hpkg ho hf
  · intro key attr hmem
    exact fieldAttr_mem_passBDirs cel packages m key attr hmem

/-- C3 witness: the sample message, its oneof, and member `x`. -/
theorem claim_C3_witness :
    ((["p"] : List String).contains sampleMessage.packageName = true)
    ∧ sampleOneof ∈ sampleMessage.oneofs
    ∧ sampleFieldX ∈ sampleOneof.fields
    ∧ (Directive.fieldAttr
          (sampleOneof.fullName ++ "." ++ sampleFieldX.name)
          (protoNameAttr sampleFieldX.name)
        ∈ passBMessage false ["p"] [] sampleMessage
      ∧ ∀ key attr,
          Directive.fieldAttr key attr
              ∈ passBMessage false ["p"] [] sampleMessage →
          ∃ o' ∈ sampleMessage.oneofs, ∃ f' ∈ o'.fields,
            key = o'.fullName ++ "." ++ f'.name
            ∧ attr = protoNameAttr f'.name) :=
  ⟨by decide, by decide, by decide,
    claim_C3_oneof_field_key false ["p"] sampleMessage sampleOneof
      sampleFieldX (by decide) (by decide) (by decide)⟩

/-- C6: in every synthesis run the two namespace remappings come after
all per-message directives (the output is the per-message flatten
followed by `remapTail`), and each remapping occurs exactly once in the
output, for every pool — including one with zero messages, for which the
flatten is empty. -/
theorem claim_C6_remaps_once (pool : DescriptorPool) (packages : List String)
    (cel : Bool) :
    synthesize pool packages cel []
      = (pool.messages.map
          (messageDirs pool.hasValidateExt cel packages)).flatten
        ++ remapTail
    ∧ (synthesize pool packages cel []).countP
        (fun d => d == Directive.pathRemap (".buf.validate")
          ("::protocheck::types::protovalidate")) = 1
    ∧ (synthesize pool packages cel []).countP
        (fun d => d == Directive.pathRemap (".google.protobuf")
          ("::protocheck::types")) = 1 := by
  have heq : synthesize pool packages cel []
      = (pool.messages.map
          (messageDirs pool.hasValidateExt cel packages)).flatten
        ++ remapTail := by
    rw [synthesize_eq]
    simp [synthDirs]
  have h0 : ∀ p r : String,
      (pool.messages.map
        (messageDirs pool.hasValidateExt cel packages)).flatten.countP
          (fun d => d == Directive.pathRemap p r) = 0 := by
    intro p r
    rw [List.countP_eq_zero]
    intro a ha hbeq
    rw [beq_iff_eq] at hbeq
    rw [hbeq] at ha
    exact not_remap_mem_msgFlatten pool packages cel p r ha
  refine ⟨heq, ?_, ?_⟩
  · rw [heq, List.countP_append, h0]
    decide
  · rw [heq, List.countP_append, h0]
    decide

/-- C8: directive synthesis is deterministic and append-only — the result
on any starting configuration is that configuration followed by the
directives of a fresh-configuration run; it never reads prior entries,
so two runs from fresh configurations register identical directives. -/
theorem claim_C8_append_only (pool : DescriptorPool) (packages : List String)
    (cel : Bool) (cfg : Config) :
    synthesize pool packages cel cfg
      = cfg ++ synthesize pool packages cel [] := by
  rw [synthesize_eq, synthesize_eq]
  simp

/-- C4 counterexample: a run whose compile and read steps succeed but
whose decode step fails (so the invocation reached the decode step and
failed) returns the decode error with the staging file still present —
the source returns at the decode `?` before ever reaching the
`remove_file` call, so no cleanup is attempted on that path, contrary to
the claim. -/
theorem claim_C4_counterexample :
    (compile_protos_with_validators envDecodeFail [] false []).result
        = Except.error BuildError.decodeError
    ∧ (compile_protos_with_validators envDecodeFail [] false []).stagingPresent
        = true := ⟨rfl, rfl⟩

/-- C4 (amended): after any successful invocation the staging
descriptor-set file is absent; on failure paths — including a failed
decode, and a failed deletion after decode — the file may remain
present, since cleanup runs only as the final step before success. -/
theorem claim_C4_success_staging_absent (env : BuildEnv)
    (packages : List String) (cel : Bool) (cfg : Config)
    (h : (compile_protos_with_validators env packages cel cfg).result
      = Except.ok ()) :
    (compile_protos_with_validators env packages cel cfg).stagingPresent
      = false := by
  rcases env with ⟨co, ro, dr, rm⟩
  cases co <;> cases ro <;> cases dr <;> cases rm <;>
    simp_all [compile_protos_with_validators]

/-- C4 witness: a fully successful run returns ok with the staging file
absent. -/
theorem claim_C4_witness :
    (compile_protos_with_validators envAllOk ["p"] false []).result
        = Except.ok ()
    ∧ (compile_protos_with_validators envAllOk ["p"] false []).stagingPresent
        = false :=
  ⟨rfl, claim_C4_success_staging_absent envAllOk ["p"] false [] rfl⟩

/-- C9: when the deletion of the staging file fails after synthesis, the
invocation returns the remove error, yet the caller's configuration
holds every directive of the run — the full synthesis output appended to
the incoming configuration, the two namespace remappings included;
nothing is rolled back. -/
theorem claim_C9_error_no_rollback (pool : DescriptorPool)
    (packages : List String) (cel : Bool) (cfg : Config) :
    (compile_protos_with_validators ⟨true, true, some pool, false⟩
        packages cel cfg).result = Except.error BuildError.removeError
    ∧ (compile_protos_with_validators ⟨true, true, some pool, false⟩
        packages cel cfg).config = cfg ++ synthDirs pool packages cel
    ∧ Directive.pathRemap (".buf.validate")
          ("::protocheck::types::protovalidate")
        ∈ (compile_protos_with_validators ⟨true, true, some pool, false⟩
            packages cel cfg).config
    ∧ Directive.pathRemap (".google.protobuf") ("::protocheck::types")
        ∈ (compile_protos_with_validators ⟨true, true, some pool, false⟩
            packages cel cfg).config := by
  have houtcome : compile_protos_with_validators ⟨true, true, some pool, false⟩
      packages cel cfg
      = ⟨Except.error BuildError.removeError,
          synthesize pool packages cel cfg, true⟩ := rfl
  rw [houtcome, synthesize_eq]
  refine ⟨rfl, rfl, ?_, ?_⟩
  · simp [synthDirs, remapTail]
  · simp [synthDirs, remapTail]

/-- C7: for every input that is not a directory,
`get_proto_files_recursive` fails with the invalid-input error — the
error result carries no list, partial or otherwise. -/
theorem claim_C7_nondir_invalid_input (n : FsNode)
    (h : n.isDir = false) :
    get_proto_files_recursive n = Except.error IoErrorKind.invalidInput := by
  cases n with
  | file name isProto valid => rfl
  | dir name children => simp [FsNode.isDir] at h

/-- C7 witness: a plain file input yields the invalid-input error. -/
theorem claim_C7_witness :
    (FsNode.file ("a.proto") true true).isDir = false
    ∧ get_proto_files_recursive (FsNode.file ("a.proto") true true)
        = Except.error IoErrorKind.invalidInput :=
  ⟨rfl, claim_C7_nondir_invalid_input (FsNode.file ("a.proto") true true) rfl⟩

/-- C10: Pass A's iteration runs over `message_desc.fields()`, which
contains the oneof member fields (hypothesis `hmf`, true of prost-reflect
pools); so a oneof member whose ignore ordinal is 3, in a target-package
message of the pool, receives in the same invocation both the Pass A
ignore directive keyed by its own fully-qualified name and the Pass B
field-name directive keyed by the oneof-scoped name — two distinct
keys. -/
theorem claim_C10_oneof_member_both_passes (pool : DescriptorPool)
    (packages : List String) (cel : Bool) (m : MessageDesc) (o : OneofDesc)
    (f : FieldDesc)
    (hext : pool.hasValidateExt = true) (hm : m ∈ pool.messages)
    (hpkg : packages.contains m.packageName = true)
    (ho : o ∈ m.oneofs) (hf : f ∈ o.fields) (hmf : f ∈ m.fields)
    (hord : ignoreOrdinal f.validateSpec = some 3)
    (hne : f.fullName ≠ o.fullName ++ "." ++ f.name) :
    Directive.fieldAttr f.fullName ignoreAttr
        ∈ synthesize pool packages cel []
    ∧ Directive.fieldAttr (o.fullName ++ "." ++ f.name)
          (protoNameAttr f.name)
        ∈ synthesize pool packages cel []
    ∧ f.fullName ≠ o.fullName ++ "." ++ f.name := by
  have hmd : ∀ d, d ∈ messageDirs pool.hasValidateExt cel packages m →
      d ∈ synthesize pool packages cel [] := by
    intro d hd
    rw [synthesize_eq]
    simp only [List.nil_append]
    unfold synthDirs
    exact List.mem_append_left _
      (List.mem_flatten.mpr ⟨_, List.mem_map_of_mem _ hm, hd⟩)
  refine ⟨?_, ?_, hne⟩
  · apply hmd
    unfold messageDirs
    apply List.mem_append_left
    unfold passADirs
    rw [hext]
    simp only [if_true]
    apply List.mem_flatten.mpr
    refine ⟨passAFieldDirs f, List.mem_map_of_mem _ hmf, ?_⟩
    unfold passAFieldDirs
    rw [if_pos ((ignore_field_iff f.validateSpec).mpr hord)]
    exact List.mem_singleton.mpr rfl
  · apply hmd
    unfold messageDirs
    apply List.mem_append_right
    exact oneofFieldDir_mem_passBDirs cel packages m o f hpkg ho hf

/-- C10 witness: the sample pool's member field `x`, carrying ignore
ordinal 3 inside oneof `p.M.o` of target-package message `p.M`. -/
theorem claim_C10_witness :
    samplePool.hasValidateExt = true
    ∧ sampleMessage ∈ samplePool.messages
    ∧ (["p"] : List String).contains sampleMessage.packageName = true
    ∧ sampleOneof ∈ sampleMessage.oneofs
    ∧ sampleFieldX ∈ sampleOneof.fields
    ∧ sampleFieldX ∈ sampleMessage.fields
    ∧ ignoreOrdinal sampleFieldX.validateSpec = some 3
    ∧ sampleFieldX.fullName ≠ sampleOneof.fullName ++ "." ++ sampleFieldX.name
    ∧ (Directive.fieldAttr sampleFieldX.fullName ignoreAttr
          ∈ synthesize samplePool ["p"] false []
      ∧ Directive.fieldAttr
            (sampleOneof.fullName ++ "." ++ sampleFieldX.name)
            (protoNameAttr sampleFieldX.name)
          ∈ synthesize samplePool ["p"] false []
      ∧ sampleFieldX.fullName
          ≠ sampleOneof.fullName ++ "." ++ sampleFieldX.name) :=
  ⟨by decide, by decide, by decide, by decide, by decide, by decide,
    by decide, by decide,
    claim_C10_oneof_member_both_passes samplePool ["p"] false sampleMessage
      sampleOneof sampleFieldX (by decide) (by decide) (by decide)
      (by decide) (by decide) (by decide) (by decide) (by decide)⟩

end Protocheck
